import Mathlib

/-!
# Verification of the i18n translation-sync scripts

Shallow embedding of the repository's three scripts
(`translate.py`, `translation_sync.py`, `translation_checker.py`).

JSON values are modelled by `JVal`; Python dicts (which preserve insertion
order) are modelled as association lists `List (String × JVal)` with
first-match lookup and insert-or-overwrite assignment, matching CPython
dict semantics.  File-system effects (writes, removals) are modelled as an
explicit event list `WEvent`.  The external OpenAI client is modelled as an
oracle parameter giving, per chunk, either a parsed response mapping
(`Except.ok`) or a raised exception (`Except.error`), exactly the two
outcomes of `translate_chunk`.
-/

/-- A JSON value, as produced by Python's `json.loads`.  `obj` keeps the
key order of the source text, like CPython dicts do. -/
inductive JVal : Type where
  | str (s : String)
  | num (n : Int)
  | bool (b : Bool)
  | null
  | arr (elems : List JVal)
  | obj (fields : List (String × JVal))
deriving Repr

/-- A Python dict of JSON values: ordered association list. -/
abbrev Dict := List (String × JVal)

/-- First-match association-list lookup: Python `d[k]` / `k in d` both read
through this (Python dicts hold each key once, so first match is the match). -/
def alookup {α : Type} : List (String × α) → String → Option α
  | [], _ => none
  | kv :: rest, k => if kv.1 = k then some kv.2 else alookup rest k

/-- Python `k in d`. -/
def keyMem {α : Type} (d : List (String × α)) (k : String) : Bool :=
  (alookup d k).isSome

/-- Python `d[k] = v`: overwrite in place if the key is present (keeping its
position), else append at the end — CPython dict assignment semantics. -/
def dinsert {α : Type} (d : List (String × α)) (k : String) (v : α) :
    List (String × α) :=
  if keyMem d k then d.map (fun kv => if kv.1 = k then (k, v) else kv)
  else d ++ [(k, v)]

/-- Python `d.update(u)`: assign every pair of `u` into `d`, in order. -/
def dictUpdate {α : Type} (d u : List (String × α)) : List (String × α) :=
  u.foldl (fun acc kv => dinsert acc kv.1 kv.2) d

/-- Python truthiness of a JSON value (`if v.get("update"):`). -/
def truthy : JVal → Bool
  | .str s => s != ""
  | .num n => n != 0
  | .bool b => b
  | .null => false
  | .arr l => !l.isEmpty
  | .obj f => !f.isEmpty

/-- Python `isinstance(v, dict)`. -/
def isObjJ : JVal → Bool
  | .obj _ => true
  | _ => false

/-- `isinstance(v, dict) and v.get("update")` — the update-directive test of
`translation_sync.py` line 128.  `dict.get` returns `None` when the key is
absent, which is falsy. -/
def isUpdateDirective (v : JVal) : Bool :=
  match v with
  | .obj fields => truthy ((alookup fields "update").getD .null)
  | _ => false

/-- The slicing loop of `chunk_dict`, written with an explicit structural
bound (`fuel`) so that the function computes by definitional reduction;
every iteration consumes at least one element when the chunk size is
positive, so `fuel = length of the list` is never exhausted. -/
def chunkFuel {α : Type} : Nat → List α → Nat → List (List α)
  | 0, _, _ => []
  | _ + 1, [], _ => []
  | fuel + 1, x :: xs, n => (x :: xs).take n :: chunkFuel fuel ((x :: xs).drop n) n

/-- `chunk_dict(data, chunk_size)` from `translate.py` lines 208-211 (the
identical copies in the other two scripts share this model): slice the item
list into consecutive runs of `chunk_size`, i.e.
`for i in range(0, len(items), chunk_size): yield dict(items[i:i+chunk_size])`.
`list(data.items())` and `dict(items[i:i+chunk_size])` are identity on the
association-list model.  Python's `range` with step 0 raises, so the
`chunk_size = 0` branch is unreachable for the positive sizes the scripts
use. -/
def chunk_dict {α : Type} (data : List α) (chunk_size : Nat) : List (List α) :=
  match chunk_size with
  | 0 => []
  | _ + 1 => chunkFuel data.length data chunk_size

/-- `updates = {k: v for k, v in en_data.items() if isinstance(v, dict) and v.get("update")}`
(`translation_sync.py` line 128). -/
def updatesOf (en : Dict) : Dict :=
  en.filter (fun kv => isUpdateDirective kv.2)

/-- `new_keys = {k: v for k, v in en_data.items() if k not in updates and not isinstance(v, dict)}`
(`translation_sync.py` line 129). -/
def newKeysOf (en : Dict) : Dict :=
  en.filter (fun kv => !keyMem (updatesOf en) kv.1 && !isObjJ kv.2)

/-- One step of the first `to_translate` loop (`translation_sync.py`
lines 145-147): `if key not in target_data: to_translate[key] = value`. -/
def addNew (target : Dict) (acc : Dict) (kv : String × JVal) : Dict :=
  if keyMem target kv.1 then acc else dinsert acc kv.1 kv.2

/-- One step of the second `to_translate` loop (`translation_sync.py`
lines 149-151): `if key in en_data: to_translate[key] = update["text"] if
isinstance(update, dict) else update`.  Every value of `updates` is a dict
(it was filtered on `isinstance`), so the `else update` arm is dead code and
`update["text"]` raises `KeyError` when the directive has no `text` field;
the raised exception is modelled as `Except.error`. -/
def addUpdate (en : Dict) (acc : Except String Dict) (kv : String × JVal) :
    Except String Dict :=
  match acc with
  | .error e => .error e
  | .ok d =>
    if keyMem en kv.1 then
      match kv.2 with
      | .obj fields =>
        match alookup fields "text" with
        | some t => .ok (dinsert d kv.1 t)
        | none => .error "KeyError: text"
      | _ => .ok (dinsert d kv.1 kv.2)
    else .ok d

/-- The value an update entry contributes to the work-set:
`update["text"] if isinstance(update, dict) else update`, with `none`
standing for the raised `KeyError` (dict without a `text` field). -/
def directiveText (v : JVal) : Option JVal :=
  match v with
  | .obj fields => alookup fields "text"
  | _ => some v

/-- The Sync Planner: the `to_translate` work-set computed per language by
`translation_sync.py` lines 143-151 (new keys first, then update
directives), given the String Table `en` and the existing Locale File
`target`.  `Except.error` models the `KeyError` escape. -/
def planWorkSet (en target : Dict) : Except String Dict :=
  (updatesOf en).foldl (addUpdate en)
    (Except.ok ((newKeysOf en).foldl (addNew target) []))

/-- The value the cleanup writes back for an update entry:
`updates[key]["text"] if "text" in updates[key] else updates[key]`
(`translation_sync.py` line 173). -/
def cleanupNewVal (v : JVal) : JVal :=
  match v with
  | JVal.obj fields =>
    match alookup fields "text" with
    | some t => t
    | none => v
  | _ => v

/-- One step of the update-flag cleanup loop (`translation_sync.py`
lines 171-173): `if isinstance(en_data[key], dict): en_data[key] =
updates[key]["text"] if "text" in updates[key] else updates[key]`.
The key is always present in `en_data` (updates is a sub-dict of it), so the
lookup cannot raise; a missing key leaves the dict unchanged in the model. -/
def cleanupStep (acc : Dict) (kv : String × JVal) : Dict :=
  match alookup acc kv.1 with
  | some (JVal.obj _) => dinsert acc kv.1 (cleanupNewVal kv.2)
  | _ => acc

/-- The String Table after the end-of-run cleanup (`translation_sync.py`
lines 170-173): every update directive with a `text` field collapses to that
text; directives without one are left as they are. -/
def cleanupUpdates (en : Dict) : Dict :=
  (updatesOf en).foldl cleanupStep en

/-- File-system effects of a run, in program order.  Console prints are not
file effects and are not recorded, with one exception: `failReport` models
the explicit `❌ No translation data was saved` message of `translate.py`
line 303, which is the only failure report the scripts make at locale level. -/
inductive WEvent : Type where
  /-- `json.dump(..., open(<lang>.json, "w"))` — final Locale File write. -/
  | localeWrite (lang : String) (content : Dict)
  /-- `json.dump(en_data, open(input_file, "w"))` — String Table write. -/
  | enWrite (content : Dict)
  /-- an error-log file write (`<name>` is the file name). -/
  | artifact (name : String) (text : String)
  /-- `json.dump(translated_data, open(<lang>.temp.json, "w"))`. -/
  | tempWrite (lang : String) (content : Dict)
  /-- `os.remove(<lang>.temp.json)`. -/
  | tempRemove (lang : String)
  /-- `translate.py`'s per-locale failure message (no data saved). -/
  | failReport (lang : String)
deriving Repr

/-- Is this event an error-log artifact file write? -/
def isArtifactEv : WEvent → Bool
  | .artifact _ _ => true
  | _ => false

/-- Is this event a Locale File write? -/
def isLocaleWriteEv : WEvent → Bool
  | .localeWrite _ _ => true
  | _ => false

/-- Is this event a temp-file write? -/
def isTempWriteEv : WEvent → Bool
  | .tempWrite _ _ => true
  | _ => false

/-- Is this event a temp-file removal? -/
def isTempRemoveEv : WEvent → Bool
  | .tempRemove _ => true
  | _ => false

/-- Is this event a per-locale failure report? -/
def isFailReportEv : WEvent → Bool
  | .failReport _ => true
  | _ => false

/-- Is this event a String Table write? -/
def isEnWriteEv : WEvent → Bool
  | .enWrite _ => true
  | _ => false

/-- Did this chunk's `translate_chunk` call raise? -/
def isErrRes (r : Except String Dict) : Bool :=
  match r with
  | .error _ => true
  | .ok _ => false

/-- `translated_data` accumulation of the sync chunk loop
(`translation_sync.py` lines 157-163): successful chunk results are merged
with `dict.update`, failed chunks are only printed about — no artifact file
is written and the loop continues. -/
def syncLoop (acc : Dict) : List (Except String Dict) → Dict
  | [] => acc
  | .ok d :: rest => syncLoop (dictUpdate acc d) rest
  | .error _ :: rest => syncLoop acc rest

/-- The chunk results folded from an empty accumulator. -/
def syncAccum (rs : List (Except String Dict)) : Dict :=
  syncLoop [] rs

/-- One language of `translate_sync` (`translation_sync.py` lines 134-168):
plan the work-set; if it is empty, skip (`continue`) with no write;
otherwise chunk it, translate every chunk through the oracle, merge the
successes into the existing Locale File with `target_data.update(...)` and
write the file — unconditionally, whether or not anything was translated.
Returns the emitted events and the written content (`none` when skipped). -/
def syncLangRun (en : Dict) (lang : String) (target : Dict) (chunkSize : Nat)
    (oracle : Nat → Except String Dict) :
    Except String (List WEvent × Option Dict) :=
  match planWorkSet en target with
  | .error e => .error e
  | .ok toT =>
    if toT.isEmpty then .ok ([], none)
    else
      let chunks := chunk_dict toT chunkSize
      let rs := (List.range chunks.length).map oracle
      let newContent := dictUpdate target (syncAccum rs)
      .ok ([WEvent.localeWrite lang newContent], some newContent)

/-- One step of the language loop of `translate_sync`, threading the
file-system state (locale name ↦ current file content) and the event log. -/
def syncStep (en : Dict) (chunkSize : Nat)
    (oracle : String → Nat → Except String Dict)
    (st : Except String (List (String × Dict) × List WEvent)) (lang : String) :
    Except String (List (String × Dict) × List WEvent) :=
  match st with
  | .error e => .error e
  | .ok (fs, evs) =>
    let target := (alookup fs lang).getD []
    match syncLangRun en lang target chunkSize (oracle lang) with
    | .error e => .error e
    | .ok (levs, written) =>
      .ok ((match written with
            | some c => dinsert fs lang c
            | none => fs), evs ++ levs)

/-- `translate_sync(input_file, output_folder, target_languages, chunk_size)`
(`translation_sync.py` lines 123-177): read the String Table `en`, sync every
language in order against the file system `fs0`, then collapse the update
directives and write the String Table once.  Any uncaught exception (the
planner's `KeyError`) aborts the whole run with nothing further written. -/
def translate_sync (en : Dict) (fs0 : List (String × Dict))
    (langs : List String) (chunkSize : Nat)
    (oracle : String → Nat → Except String Dict) : Except String (List WEvent) :=
  match langs.foldl (syncStep en chunkSize oracle) (.ok (fs0, [])) with
  | .error e => .error e
  | .ok (_, evs) => .ok (evs ++ [WEvent.enWrite (cleanupUpdates en)])

/-- The chunk loop of `translate_file` (`translate.py` lines 274-292),
on the results `rs` of `translate_chunk` per chunk, starting at 0-based
index `idx` with accumulator `acc`: a success is merged with `dict.update`
and the accumulator is written to the temp file; a failure writes one
`<lang>_error_chunk_<idx+1>.log` artifact and the loop continues. -/
def bulkLoop (lang : String) (idx : Nat) (acc : Dict) :
    List (Except String Dict) → Dict × List WEvent
  | [] => (acc, [])
  | .ok d :: rest =>
    let acc2 := dictUpdate acc d
    let r := bulkLoop lang (idx + 1) acc2 rest
    (r.1, WEvent.tempWrite lang acc2 :: r.2)
  | .error e :: rest =>
    let r := bulkLoop lang (idx + 1) acc rest
    (r.1, WEvent.artifact (lang ++ "_error_chunk_" ++ toString (idx + 1) ++ ".log") e :: r.2)

/-- One language of `translate_file` (`translate.py` lines 266-305): run the
chunk loop; if any data accumulated, write the Locale File (its entire new
content is the accumulated data — the existing file is never read) and
remove the temp file if one was written; otherwise print the failure report
and leave every file untouched. -/
def bulkLang (lang : String) (rs : List (Except String Dict)) : List WEvent :=
  if (bulkLoop lang 0 [] rs).1.isEmpty then
    (bulkLoop lang 0 [] rs).2 ++ [WEvent.failReport lang]
  else
    (bulkLoop lang 0 [] rs).2 ++
      [WEvent.localeWrite lang (bulkLoop lang 0 [] rs).1] ++
      (if (bulkLoop lang 0 [] rs).2.any isTempWriteEv
       then [WEvent.tempRemove lang] else [])

/-- `translate_file(input_file, output_base_folder, target_languages,
chunk_size)` (`translate.py` lines 253-305): every language translates the
whole table; chunk results come from the oracle. -/
def translate_file (original : Dict) (langs : List String) (chunkSize : Nat)
    (oracle : String → Nat → Except String Dict) : List WEvent :=
  langs.foldl
    (fun evs lang =>
      let chunks := chunk_dict original chunkSize
      let rs := (List.range chunks.length).map (oracle lang)
      evs ++ bulkLang lang rs) []

/-- Python's `str.strip()` whitespace set (the six ASCII space characters). -/
def isPySpace (c : Char) : Bool :=
  c = ' ' || c = '\t' || c = '\n' || c = '\r' || c = '\x0b' || c = '\x0c'

/-- `s.lstrip()`. -/
def lstripWs (l : List Char) : List Char :=
  l.dropWhile isPySpace

/-- `s.rstrip()`. -/
def rstripWs (l : List Char) : List Char :=
  (l.reverse.dropWhile isPySpace).reverse

/-- `s.strip()`. -/
def pyStrip (l : List Char) : List Char :=
  rstripWs (lstripWs l)

/-- `s.lstrip(chars)`: removes every leading character that is a member of
the CHARACTER SET `chars` — not the literal prefix `chars`. -/
def lstripSet (chars : List Char) (l : List Char) : List Char :=
  l.dropWhile (fun c => chars.contains c)

/-- `s.rstrip(chars)`: set-based, from the right. -/
def rstripSet (chars : List Char) (l : List Char) : List Char :=
  (l.reverse.dropWhile (fun c => chars.contains c)).reverse

/-- `s.startswith(p)`. -/
def startsWithL : List Char → List Char → Bool
  | [], _ => true
  | _ :: _, [] => false
  | p :: ps, c :: cs => p = c && startsWithL ps cs

/-- `s.endswith(p)`. -/
def endsWithL (p l : List Char) : Bool :=
  startsWithL p.reverse l.reverse

/-- The characters of `"```json"`. -/
def fenceTagChars : List Char := ['`', '`', '`', 'j', 's', 'o', 'n']

/-- The characters of `"```"`. -/
def fenceChars : List Char := ['`', '`', '`']

/-- The Markdown-fence removal of the bulk/sync path (`translate.py`
lines 232-240 = `translation_sync.py` lines 110-116): strip, then
`lstrip("```json")` / `lstrip("```")` (character-set strips) when the text
starts with the fence, then `rstrip("```")` when it ends with one; the
result is handed to `json.loads`. -/
def bulkNormalize (raw : List Char) : List Char :=
  let c0 := pyStrip raw
  let c1 :=
    if startsWithL fenceTagChars c0 then pyStrip (lstripSet fenceTagChars c0)
    else if startsWithL fenceChars c0 then pyStrip (lstripSet fenceChars c0)
    else c0
  if endsWithL fenceChars c1 then pyStrip (rstripSet fenceChars c1) else c1

/-- The Markdown-fence removal of the QA path (`translation_checker.py`
lines 103-111): strip, then slice off `len("```json")` or `len("```")`
leading characters when the text starts with the fence, then slice off the
last three when it ends with one. -/
def checkerNormalize (raw : List Char) : List Char :=
  let c0 := pyStrip raw
  let c1 :=
    if startsWithL fenceTagChars c0 then pyStrip (c0.drop 7)
    else if startsWithL fenceChars c0 then pyStrip (c0.drop 3)
    else c0
  if endsWithL fenceChars c1 then pyStrip (c1.take (c1.length - 3)) else c1

/-- The curly-quote replacements of `clean_quotes_and_escape`
(`translation_checker.py` lines 78-82); each replacement is a
single-character substitution. -/
def replaceQuoteChars (content : List Char) : List Char :=
  content.map (fun c =>
    if c = '“' || c = '”' || c = '«' || c = '»' then '"'
    else if c = '‘' || c = '’' then Char.ofNat 39
    else c)

/-- `clean_quotes_and_escape(content)` (`translation_checker.py`
lines 76-89).  After the quote replacements it calls
`re.sub(r'(?<="translation":\\s?)"(.*?[^\\])"|(?<="issue":\\s?)"(.*?[^\\])"', ...)`.
Both lookbehind groups contain `\\` (one literal backslash) followed by
`s?` (an optional letter), so their width is not fixed; CPython's `re`
module rejects variable-width lookbehind when it compiles the pattern, so
the `re.sub` call raises `re.error("look-behind requires fixed-width
pattern")` on every input, before any substitution happens.  The raised
exception is modelled as `Except.error`. -/
def clean_quotes_and_escape (content : List Char) : Except String (List Char) :=
  let _cleaned := replaceQuoteChars content
  Except.error "re.error: look-behind requires fixed-width pattern"

/-- `re.search(r'{.*}', content, re.DOTALL)`: with a greedy `.*` that also
matches newlines, this is the substring from the first `\x7b` to the last
`\x7d`, when the first `\x7b` has a `\x7d` somewhere after it. -/
def braceSpan (content : List Char) : Option (List Char) :=
  let afterOpen := content.dropWhile (fun c => c ≠ '{')
  let inner := (afterOpen.reverse.dropWhile (fun c => c ≠ '}')).reverse
  if inner.isEmpty then none else some inner

/-- The response normalization of `check_translation_chunk`
(`translation_checker.py` lines 103-131), with `json.loads` abstracted as
`jparse` (a parser returning `none` exactly on the text it raises on):
strip fences, clean quotes, parse; on parse failure extract the outermost
brace span, clean and parse again; on continued failure log the text and
return the `{"error": content}` sentinel.  `Except.error` models an
uncaught exception escaping the function. -/
def check_translation_chunk_norm (jparse : List Char → Option JVal)
    (raw : List Char) : Except String JVal :=
  let content := checkerNormalize (pyStrip raw)
  match clean_quotes_and_escape content with
  | .error e => .error e
  | .ok c =>
    match jparse c with
    | some v => .ok v
    | none =>
      match braceSpan c with
      | some sub =>
        match clean_quotes_and_escape sub with
        | .error e => .error e
        | .ok sub2 =>
          match jparse sub2 with
          | some v => .ok v
          | none => .ok (JVal.obj [("error", JVal.str (String.mk c))])
      | none => .ok (JVal.obj [("error", JVal.str (String.mk c))])

/-- The accumulated `problems` dict of `check_translations`
(`translation_checker.py` lines 153-158): every chunk's review result
(supplied by the oracle, standing for `check_translation_chunk`'s return
value) is merged with `problems.update(issues)`. -/
def qaProblems (numChunks : Nat) (oracle : Nat → Dict) : Dict :=
  (List.range numChunks).foldl (fun probs i => dictUpdate probs (oracle i)) []

/-- One step of the QA merge loop (`translation_checker.py` lines 161-163):
`if isinstance(data, dict) and "translation" in data:
translated_data[key] = data["translation"]`. -/
def qaMergeStep (td : Dict) (kv : String × JVal) : Dict :=
  match kv.2 with
  | JVal.obj fields =>
    match alookup fields "translation" with
    | some t => dinsert td kv.1 t
    | none => td
  | _ => td

/-- The QA merge: fold every problem entry into the Locale File data. -/
def qaMerge (problems translated : Dict) : Dict :=
  problems.foldl qaMergeStep translated

/-- One locale of `check_translations` (`translation_checker.py`
lines 149-168): review every chunk of the source, accumulate the problem
records, and — only when `problems` is non-empty — patch the corrections in
and write the file.  Returns the final Locale File data and whether a write
happened. -/
def check_locale (en translated : Dict) (chunkSize : Nat)
    (oracle : Nat → Dict) : Dict × Bool :=
  let problems := qaProblems (chunk_dict en chunkSize).length oracle
  if problems.isEmpty then (translated, false)
  else (qaMerge problems translated, true)

theorem alookup_cons {α : Type} (kv : String × α) (rest : List (String × α))
    (k : String) :
    alookup (kv :: rest) k = if kv.1 = k then some kv.2 else alookup rest k := rfl

theorem alookup_append_single {α : Type} (d : List (String × α)) (k k2 : String)
    (v : α) :
    alookup (d ++ [(k, v)]) k2 =
      match alookup d k2 with
      | some w => some w
      | none => if k = k2 then some v else none := by
  induction d with
  | nil => simp [alookup]
  | cons kv rest ih =>
    by_cases h : kv.1 = k2 <;> simp [alookup_cons, h, ih]

theorem alookup_replace_ne {α : Type} (d : List (String × α)) (k k2 : String)
    (v : α) (h : k ≠ k2) :
    alookup (d.map (fun kv => if kv.1 = k then (k, v) else kv)) k2 =
      alookup d k2 := by
  induction d with
  | nil => rfl
  | cons kv rest ih =>
    by_cases hk : kv.1 = k
    · simp [alookup_cons, hk, h, ih]
    · simp [alookup_cons, hk, ih]

theorem alookup_replace_self {α : Type} (d : List (String × α)) (k : String)
    (v : α) (h : keyMem d k = true) :
    alookup (d.map (fun kv => if kv.1 = k then (k, v) else kv)) k = some v := by
  induction d with
  | nil => simp [keyMem, alookup] at h
  | cons kv rest ih =>
    by_cases hk : kv.1 = k
    · simp [alookup_cons, hk]
    · have h2 : keyMem rest k = true := by
        simpa [keyMem, alookup_cons, hk] using h
      simp [alookup_cons, hk, ih h2]

theorem alookup_isNone_of_not_keyMem {α : Type} (d : List (String × α))
    (k : String) (h : keyMem d k = false) : alookup d k = none := by
  unfold keyMem at h
  cases hl : alookup d k with
  | none => rfl
  | some w => rw [hl] at h; simp at h

theorem alookup_dinsert {α : Type} (d : List (String × α)) (k k2 : String)
    (v : α) :
    alookup (dinsert d k v) k2 =
      if k = k2 then some v else alookup d k2 := by
  unfold dinsert
  by_cases hm : keyMem d k
  · simp only [hm, if_true]
    by_cases hk : k = k2
    · subst hk; simp [alookup_replace_self d k v hm]
    · simp [hk, alookup_replace_ne d k k2 v hk]
  · simp only [Bool.not_eq_true] at hm
    simp only [hm, Bool.false_eq_true, if_false]
    rw [alookup_append_single]
    by_cases hk : k = k2
    · subst hk
      rw [alookup_isNone_of_not_keyMem d k hm]
    · cases hl : alookup d k2 <;> simp [hk, hl]

theorem keyMem_dinsert {α : Type} (d : List (String × α)) (k k2 : String)
    (v : α) :
    keyMem (dinsert d k v) k2 = (decide (k = k2) || keyMem d k2) := by
  unfold keyMem
  rw [alookup_dinsert]
  by_cases hk : k = k2 <;> simp [hk]

theorem keyMem_cons {α : Type} (kv : String × α) (rest : List (String × α))
    (k : String) :
    keyMem (kv :: rest) k = (decide (kv.1 = k) || keyMem rest k) := by
  unfold keyMem
  rw [alookup_cons]
  by_cases hk : kv.1 = k <;> simp [hk]

theorem dictUpdate_nil {α : Type} (d : List (String × α)) :
    dictUpdate d [] = d := rfl

theorem dictUpdate_cons {α : Type} (d : List (String × α)) (kv : String × α)
    (u : List (String × α)) :
    dictUpdate d (kv :: u) = dictUpdate (dinsert d kv.1 kv.2) u := rfl

theorem keyMem_dictUpdate {α : Type} (d u : List (String × α)) (k : String) :
    keyMem (dictUpdate d u) k = (keyMem d k || keyMem u k) := by
  induction u generalizing d with
  | nil => simp [dictUpdate_nil, keyMem, alookup]
  | cons kv rest ih =>
    rw [dictUpdate_cons, ih, keyMem_dinsert, keyMem_cons]
    by_cases h : kv.1 = k <;> simp [h]

theorem alookup_eq_none_iff {α : Type} (l : List (String × α)) (k : String) :
    alookup l k = none ↔ k ∉ l.map Prod.fst := by
  induction l with
  | nil => simp [alookup]
  | cons kv rest ih =>
    by_cases h : kv.1 = k
    · simp [alookup_cons, h]
    · simp [alookup_cons, h, ih, Ne.symm h]

theorem fold_frame (step : Dict → (String × JVal) → Dict)
    (hframe : ∀ acc kv k, k ≠ kv.1 → alookup (step acc kv) k = alookup acc k)
    (entries : List (String × JVal)) (acc : Dict) (k : String)
    (h : k ∉ entries.map Prod.fst) :
    alookup (entries.foldl step acc) k = alookup acc k := by
  induction entries generalizing acc with
  | nil => rfl
  | cons kv rest ih =>
    simp only [List.map_cons, List.mem_cons] at h
    push_neg at h
    rw [List.foldl_cons, ih (step acc kv) h.2, hframe acc kv k h.1]

theorem fold_lookup (step : Dict → (String × JVal) → Dict)
    (selfF : Option JVal → String × JVal → Option JVal)
    (hframe : ∀ acc kv k, k ≠ kv.1 → alookup (step acc kv) k = alookup acc k)
    (hself : ∀ acc kv, alookup (step acc kv) kv.1 = selfF (alookup acc kv.1) kv)
    (entries : List (String × JVal)) (acc : Dict) (k : String)
    (hnd : (entries.map Prod.fst).Nodup) :
    alookup (entries.foldl step acc) k =
      match alookup entries k with
      | some v => selfF (alookup acc k) (k, v)
      | none => alookup acc k := by
  induction entries generalizing acc with
  | nil => rfl
  | cons kv rest ih =>
    obtain ⟨k1, v1⟩ := kv
    simp only [List.map_cons, List.nodup_cons] at hnd
    rw [List.foldl_cons]
    by_cases hk : k1 = k
    · subst hk
      rw [fold_frame step hframe rest (step acc (k1, v1)) k1 hnd.1]
      rw [hself acc (k1, v1), alookup_cons]
      simp
    · rw [ih (step acc (k1, v1)) hnd.2, alookup_cons, if_neg hk]
      have hf : alookup (step acc (k1, v1)) k = alookup acc k :=
        hframe acc (k1, v1) k (fun he => hk he.symm)
      cases hr : alookup rest k <;> simp [hf]

theorem alookup_filter (p : String × JVal → Bool) (en : Dict) (k : String)
    (hnd : (en.map Prod.fst).Nodup) :
    alookup (en.filter p) k =
      match alookup en k with
      | some v => if p (k, v) then some v else none
      | none => none := by
  induction en with
  | nil => rfl
  | cons kv rest ih =>
    obtain ⟨k1, v1⟩ := kv
    simp only [List.map_cons, List.nodup_cons] at hnd
    by_cases hk : k1 = k
    · subst hk
      have hnone : alookup (rest.filter p) k1 = none := by
        rw [alookup_eq_none_iff]
        intro hmem
        exact hnd.1 (List.map_subset Prod.fst (List.filter_subset' rest) hmem)
      by_cases hp : p (k1, v1)
      · rw [List.filter_cons_of_pos hp, alookup_cons, alookup_cons]
        simp [hp]
      · rw [List.filter_cons_of_neg (by simpa using hp), alookup_cons, hnone]
        simp only [Bool.not_eq_true] at hp
        simp [hp]
    · by_cases hp : p (k1, v1)
      · rw [List.filter_cons_of_pos hp, alookup_cons, if_neg hk, alookup_cons,
          if_neg hk, ih hnd.2]
      · rw [List.filter_cons_of_neg (by simpa using hp), alookup_cons,
          if_neg hk, ih hnd.2]

theorem chunkFuel_fuel_irrel {α : Type} (n : Nat) :
    ∀ (fuel1 : Nat) (fuel2 : Nat) (l : List α), 0 < n →
      l.length ≤ fuel1 → l.length ≤ fuel2 →
      chunkFuel fuel1 l n = chunkFuel fuel2 l n := by
  intro fuel1
  induction fuel1 with
  | zero =>
    intro fuel2 l hn h1 h2
    have hl : l = [] := by
      cases l with
      | nil => rfl
      | cons x xs => simp at h1
    subst hl
    cases fuel2 <;> rfl
  | succ f ih =>
    intro fuel2 l hn h1 h2
    cases l with
    | nil => cases fuel2 <;> rfl
    | cons x xs =>
      cases fuel2 with
      | zero => simp at h2
      | succ f2 =>
        show (x :: xs).take n :: chunkFuel f ((x :: xs).drop n) n =
          (x :: xs).take n :: chunkFuel f2 ((x :: xs).drop n) n
        congr 1
        apply ih f2 _ hn
        · simp only [List.length_drop, List.length_cons]
          simp only [List.length_cons] at h1
          omega
        · simp only [List.length_drop, List.length_cons]
          simp only [List.length_cons] at h2
          omega

theorem chunk_dict_nil {α : Type} (n : Nat) : chunk_dict ([] : List α) n = [] := by
  cases n <;> rfl

theorem chunk_dict_zero {α : Type} (l : List α) : chunk_dict l 0 = [] := rfl

theorem chunk_dict_cons {α : Type} (x : α) (xs : List α) (n : Nat) (hn : n ≠ 0) :
    chunk_dict (x :: xs) n = (x :: xs).take n :: chunk_dict ((x :: xs).drop n) n := by
  cases n with
  | zero => exact absurd rfl hn
  | succ m =>
    show (x :: xs).take (m + 1) :: chunkFuel xs.length ((x :: xs).drop (m + 1)) (m + 1) = _
    unfold chunk_dict
    congr 1
    apply chunkFuel_fuel_irrel (m + 1) xs.length _ _ (Nat.succ_pos m)
    · simp only [List.length_drop, List.length_cons]
      omega
    · exact le_refl _

theorem chunk_dict_flatten_aux {α : Type} :
    ∀ (L : Nat) (l : List α) (n : Nat), l.length ≤ L → 0 < n →
      (chunk_dict l n).flatten = l := by
  intro L
  induction L with
  | zero =>
    intro l n hl _
    have he : l = [] := by
      cases l with
      | nil => rfl
      | cons x xs => simp at hl
    subst he
    rw [chunk_dict_nil]
    rfl
  | succ M ih =>
    intro l n hl h
    cases l with
    | nil => rw [chunk_dict_nil]; rfl
    | cons x xs =>
      rw [chunk_dict_cons _ _ _ (by omega)]
      simp only [List.flatten_cons]
      rw [ih _ n ?_ h, List.take_append_drop]
      simp only [List.length_drop, List.length_cons]
      simp only [List.length_cons] at hl
      omega

theorem chunk_dict_flatten {α : Type} (l : List α) (n : Nat) (h : 0 < n) :
    (chunk_dict l n).flatten = l :=
  chunk_dict_flatten_aux l.length l n (le_refl _) h

theorem chunk_dict_length_aux {α : Type} :
    ∀ (L : Nat) (l : List α) (n : Nat), l.length ≤ L → 0 < n →
      (chunk_dict l n).length = (l.length + n - 1) / n := by
  intro L
  induction L with
  | zero =>
    intro l n hl h
    have he : l = [] := by
      cases l with
      | nil => rfl
      | cons x xs => simp at hl
    subst he
    rw [chunk_dict_nil]
    simp only [List.length_nil, Nat.zero_add]
    exact (Nat.div_eq_of_lt (by omega)).symm
  | succ M ih =>
    intro l n hl h
    cases l with
    | nil =>
      rw [chunk_dict_nil]
      simp only [List.length_nil, Nat.zero_add]
      exact (Nat.div_eq_of_lt (by omega)).symm
    | cons x xs =>
      rw [chunk_dict_cons _ _ _ (by omega)]
      simp only [List.length_cons]
      rw [ih _ n ?_ h]
      · simp only [List.length_drop, List.length_cons]
        have e1 : xs.length + 1 + n - 1 = (xs.length + 1 - 1) + n := by omega
        rw [e1, Nat.add_div_right _ h]
        by_cases hmq : xs.length + 1 ≤ n
        · have e2 : xs.length + 1 - n = 0 := by omega
          rw [e2]
          have e3 : (0 + n - 1) / n = 0 := Nat.div_eq_of_lt (by omega)
          have e4 : (xs.length + 1 - 1) / n = 0 := Nat.div_eq_of_lt (by omega)
          rw [e3, e4]
        · have e2 : xs.length + 1 - n + n - 1 = xs.length := by omega
          have e3 : xs.length + 1 - 1 = xs.length := by omega
          rw [e2, e3]
      · simp only [List.length_drop, List.length_cons]
        simp only [List.length_cons] at hl
        omega

theorem chunk_dict_length {α : Type} (l : List α) (n : Nat) (h : 0 < n) :
    (chunk_dict l n).length = (l.length + n - 1) / n :=
  chunk_dict_length_aux l.length l n (le_refl _) h

theorem chunk_dict_sizes_aux {α : Type} :
    ∀ (L : Nat) (l : List α) (n : Nat), l.length ≤ L →
      ∀ c ∈ chunk_dict l n, c.length ≤ n := by
  intro L
  induction L with
  | zero =>
    intro l n hl c hc
    have he : l = [] := by
      cases l with
      | nil => rfl
      | cons x xs => simp at hl
    subst he
    rw [chunk_dict_nil] at hc
    exact absurd hc (List.not_mem_nil c)
  | succ M ih =>
    intro l n hl c hc
    cases l with
    | nil =>
      rw [chunk_dict_nil] at hc
      exact absurd hc (List.not_mem_nil c)
    | cons x xs =>
      cases n with
      | zero =>
        rw [chunk_dict_zero] at hc
        exact absurd hc (List.not_mem_nil c)
      | succ m =>
        rw [chunk_dict_cons _ _ _ (by omega)] at hc
        rcases List.mem_cons.mp hc with h1 | h2
        · subst h1; exact List.length_take_le _ _
        · refine ih _ _ ?_ c h2
          simp only [List.length_drop, List.length_cons]
          simp only [List.length_cons] at hl
          omega

theorem chunk_dict_sizes {α : Type} (l : List α) (n : Nat) :
    ∀ c ∈ chunk_dict l n, c.length ≤ n :=
  chunk_dict_sizes_aux l.length l n (le_refl _)

theorem nodup_keys_filter (en : Dict) (p : String × JVal → Bool)
    (hnd : (en.map Prod.fst).Nodup) : ((en.filter p).map Prod.fst).Nodup :=
  ((List.filter_sublist en).map Prod.fst).nodup hnd

theorem addNew_frame (target : Dict) (acc : Dict) (kv : String × JVal)
    (k : String) (h : k ≠ kv.1) :
    alookup (addNew target acc kv) k = alookup acc k := by
  unfold addNew
  by_cases hm : keyMem target kv.1
  · rw [if_pos hm]
  · rw [if_neg (by simpa using hm), alookup_dinsert,
      if_neg (fun he => h he.symm)]

theorem addNew_self (target : Dict) (acc : Dict) (kv : String × JVal) :
    alookup (addNew target acc kv) kv.1 =
      if keyMem target kv.1 then alookup acc kv.1 else some kv.2 := by
  unfold addNew
  by_cases hm : keyMem target kv.1
  · rw [if_pos hm, if_pos hm]
  · rw [if_neg (by simpa using hm), if_neg (by simpa using hm),
      alookup_dinsert, if_pos rfl]

theorem addNew_fold_lookup (target : Dict) (entries : List (String × JVal))
    (k : String) (hnd : (entries.map Prod.fst).Nodup) :
    alookup (entries.foldl (addNew target) []) k =
      match alookup entries k with
      | some v => if keyMem target k then none else some v
      | none => none := by
  have h := fold_lookup (addNew target)
    (fun o kv => if keyMem target kv.1 then o else some kv.2)
    (addNew_frame target) (addNew_self target) entries [] k hnd
  cases hr : alookup entries k <;> simp [hr, alookup] at h <;> simpa [alookup] using h

theorem addUpdate_error (en : Dict) (e : String)
    (entries : List (String × JVal)) :
    entries.foldl (addUpdate en) (Except.error e) = Except.error e := by
  induction entries with
  | nil => rfl
  | cons kv rest ih => exact ih

theorem addUpdate_ok_step (en : Dict) (acc : Dict) (k1 : String) (v1 : JVal) :
    addUpdate en (Except.ok acc) (k1, v1) =
      if keyMem en k1 then
        match directiveText v1 with
        | some t => Except.ok (dinsert acc k1 t)
        | none => Except.error "KeyError: text"
      else Except.ok acc := by
  cases v1 <;> rfl

theorem addUpdate_fold_ok (en : Dict) (entries : List (String × JVal))
    (acc ws : Dict) (k : String) (hnd : (entries.map Prod.fst).Nodup)
    (hok : entries.foldl (addUpdate en) (Except.ok acc) = Except.ok ws) :
    alookup ws k =
      match alookup entries k with
      | some v => if keyMem en k then directiveText v else alookup acc k
      | none => alookup acc k := by
  induction entries generalizing acc with
  | nil =>
    injection hok with h
    subst h
    rfl
  | cons kv rest ih =>
    obtain ⟨k1, v1⟩ := kv
    simp only [List.map_cons, List.nodup_cons] at hnd
    rw [List.foldl_cons, addUpdate_ok_step] at hok
    by_cases hm : keyMem en k1
    · rw [if_pos hm] at hok
      cases ht : directiveText v1 with
      | none =>
        rw [ht, addUpdate_error] at hok
        exact absurd hok (by simp)
      | some t =>
        rw [ht] at hok
        have h2 := ih (dinsert acc k1 t) hnd.2 hok
        by_cases hk : k1 = k
        · subst hk
          have hr : alookup rest k1 = none := (alookup_eq_none_iff _ _).mpr hnd.1
          rw [h2, hr, alookup_cons]
          simp [hm, ht, alookup_dinsert]
        · rw [h2, alookup_cons, if_neg hk]
          have hd : alookup (dinsert acc k1 t) k = alookup acc k := by
            rw [alookup_dinsert, if_neg hk]
          cases hr : alookup rest k <;> simp [hd]
    · rw [if_neg hm] at hok
      have h2 := ih acc hnd.2 hok
      by_cases hk : k1 = k
      · subst hk
        have hr : alookup rest k1 = none := (alookup_eq_none_iff _ _).mpr hnd.1
        rw [h2, hr, alookup_cons]
        simp [hm]
      · rw [h2, alookup_cons, if_neg hk]

/-- Claim C1 (amended).  For every String Table `en` (distinct keys, as JSON
objects have) and existing Locale File `target`, whenever the Sync Planner
succeeds with work-set `ws`, the work-set is characterized pointwise:
an update-directive entry (a record whose `update` field is truthy)
contributes its `text` field regardless of `target`; a record entry that is
NOT an update directive is excluded from the work-set altogether — not
treated as a plain entry, as the original claim said; any other (non-record)
entry contributes its full value exactly when its key is absent from
`target`; no other key is in the work-set.  In particular a key already in
`target` is in the work-set only as an update directive, and a directive's
value wins. -/
theorem c1_workset_characterization (en target ws : Dict)
    (hnd : (en.map Prod.fst).Nodup)
    (hok : planWorkSet en target = Except.ok ws) (k : String) :
    alookup ws k =
      match alookup en k with
      | some v =>
        if isUpdateDirective v then directiveText v
        else if isObjJ v then none
        else if keyMem target k then none else some v
      | none => none := by
  have hnd_upd := nodup_keys_filter en (fun kv => isUpdateDirective kv.2) hnd
  have hnd_new := nodup_keys_filter en
    (fun kv => !keyMem (updatesOf en) kv.1 && !isObjJ kv.2) hnd
  unfold planWorkSet at hok
  have h2 := addUpdate_fold_ok en (updatesOf en) _ ws k hnd_upd hok
  have h1 := addNew_fold_lookup target (newKeysOf en) k hnd_new
  have hu : alookup (updatesOf en) k =
      match alookup en k with
      | some v => if isUpdateDirective v then some v else none
      | none => none := by
    simpa [updatesOf] using
      alookup_filter (fun kv => isUpdateDirective kv.2) en k hnd
  have hn2 : alookup (newKeysOf en) k =
      match alookup en k with
      | some v =>
        if !keyMem (updatesOf en) k && !isObjJ v then some v else none
      | none => none := by
    simpa [newKeysOf] using
      alookup_filter (fun kv => !keyMem (updatesOf en) kv.1 && !isObjJ kv.2)
        en k hnd
  cases he : alookup en k with
  | none =>
    simp only [he] at hu hn2
    rw [hu] at h2
    rw [hn2] at h1
    simp only [he]
    rw [h2, h1]
  | some v =>
    have hm : keyMem en k = true := by simp [keyMem, he]
    by_cases hdir : isUpdateDirective v = true
    · simp only [he, hdir, if_true] at hu
      rw [hu] at h2
      simp only [hm, if_true] at h2
      simp only [he, hdir, if_true]
      exact h2
    · have hdirf : isUpdateDirective v = false := by simpa using hdir
      simp only [he, hdirf, Bool.false_eq_true, if_false] at hu
      rw [hu] at h2
      have hknone : keyMem (updatesOf en) k = false := by simp [keyMem, hu]
      simp only [he, hknone, Bool.not_false, Bool.true_and] at hn2
      by_cases hobj : isObjJ v = true
      · simp only [hobj, Bool.not_true, Bool.false_eq_true, if_false] at hn2
        rw [hn2] at h1
        simp only [he, hdirf, Bool.false_eq_true, if_false, hobj, if_true]
        rw [h2, h1]
      · have hobjf : isObjJ v = false := by simpa using hobj
        simp only [hobjf, Bool.not_false, if_true] at hn2
        rw [hn2] at h1
        simp only [he, hdirf, Bool.false_eq_true, if_false, hobjf]
        rw [h2, h1]

/-- Claim C1 counterexample.  String Table `S = \x7b"k": \x7b\x7d\x7d`,
empty Locale File `T`: the value `\x7b\x7d` is not an update-directive
record and its key is absent from `T`, so the claim requires `"k"` in the
work-set with its full value; but the planner's work-set is empty — entries
whose value is a record without a truthy `update` field are dropped
entirely (they fail the `not isinstance(v, dict)` test of `new_keys` and
the `v.get("update")` test of `updates`). -/
theorem c1_counterexample :
    isUpdateDirective (JVal.obj []) = false ∧
    keyMem ([] : Dict) "k" = false ∧
    ¬ ∃ ws, planWorkSet [("k", JVal.obj [])] [] = Except.ok ws ∧
        keyMem ws "k" = true := by
  refine ⟨rfl, rfl, ?_⟩
  rintro ⟨ws, hws, hk⟩
  have h0 : planWorkSet [("k", JVal.obj [])] [] = Except.ok [] := rfl
  rw [h0] at hws
  injection hws with h1
  rw [← h1] at hk
  simp [keyMem, alookup] at hk

/-- Witness for `c1_workset_characterization`: String Table with a plain
entry `"a"` (already translated) and an update directive `"b"`; the planner
yields exactly `\x7b"b": "y"\x7d`. -/
theorem c1_workset_characterization_witness :
    alookup [("b", JVal.str "y")] "a" = none ∧
    alookup [("b", JVal.str "y")] "b" = some (JVal.str "y") := by
  constructor
  · have ha := c1_workset_characterization
      [("a", JVal.str "x"),
       ("b", JVal.obj [("text", JVal.str "y"), ("update", JVal.bool true)])]
      [("a", JVal.str "old")] [("b", JVal.str "y")] (by decide) rfl "a"
    exact ha.trans (by rfl)
  · have hb := c1_workset_characterization
      [("a", JVal.str "x"),
       ("b", JVal.obj [("text", JVal.str "y"), ("update", JVal.bool true)])]
      [("a", JVal.str "old")] [("b", JVal.str "y")] (by decide) rfl "b"
    exact hb.trans (by rfl)

/-- Claim C2.  For every mapping `M` and positive chunk size `N`, the
Chunker yields exactly ceil(|M|/N) chunks (written `(|M| + N - 1) / N` in
natural division), each chunk has at most `N` entries, concatenating the
chunks in order reconstructs `M` exactly (key order and values unchanged),
and an empty mapping yields zero chunks, not one empty chunk. -/
theorem c2_chunker (M : Dict) (N : Nat) (h : 0 < N) :
    (chunk_dict M N).length = (M.length + N - 1) / N ∧
    (∀ c ∈ chunk_dict M N, c.length ≤ N) ∧
    (chunk_dict M N).flatten = M ∧
    chunk_dict ([] : Dict) N = [] :=
  ⟨chunk_dict_length M N h, chunk_dict_sizes M N, chunk_dict_flatten M N h,
   chunk_dict_nil N⟩

/-- Witness for `c2_chunker` at a three-entry mapping and chunk size 2. -/
theorem c2_chunker_witness :
    (chunk_dict [("a", JVal.str "1"), ("b", JVal.str "2"),
      ("c", JVal.str "3")] 2).length = 2 ∧
    (chunk_dict [("a", JVal.str "1"), ("b", JVal.str "2"),
      ("c", JVal.str "3")] 2).flatten =
      [("a", JVal.str "1"), ("b", JVal.str "2"), ("c", JVal.str "3")] := by
  have h := c2_chunker
    [("a", JVal.str "1"), ("b", JVal.str "2"), ("c", JVal.str "3")] 2
    (by decide)
  exact ⟨h.1.trans (by decide), h.2.2.1⟩

/-- Claim C3 (code-bug evaluation).  On an update directive without a
`text` field — String Table `\x7b"k": \x7b"update": true\x7d\x7d` — the
Sync Planner raises `KeyError: text` instead of falling back to the raw
value: the `isinstance(update, dict)` guard of line 151 is always true
(the `updates` dict was filtered on `isinstance`), so the intended
raw-value fallback is dead code and `update["text"]` raises.  The exception
is uncaught, so with at least one target language the whole sync run aborts
(second conjunct; the oracle is never consulted). -/
theorem c3_missing_text_keyerror :
    planWorkSet [("k", JVal.obj [("update", JVal.bool true)])] [] =
      Except.error "KeyError: text" ∧
    translate_sync [("k", JVal.obj [("update", JVal.bool true)])] [] ["fr"] 1
      (fun _ _ => Except.ok []) = Except.error "KeyError: text" := ⟨rfl, rfl⟩

theorem cleanup_frame (acc : Dict) (kv : String × JVal) (k : String)
    (h : k ≠ kv.1) : alookup (cleanupStep acc kv) k = alookup acc k := by
  unfold cleanupStep
  split
  · rw [alookup_dinsert, if_neg (fun he => h he.symm)]
  · rfl

theorem cleanup_self (acc : Dict) (kv : String × JVal) :
    alookup (cleanupStep acc kv) kv.1 =
      match alookup acc kv.1 with
      | some (JVal.obj _) => some (cleanupNewVal kv.2)
      | _ => alookup acc kv.1 := by
  cases ha : alookup acc kv.1 with
  | none =>
    unfold cleanupStep
    rw [ha]
    exact ha
  | some v =>
    unfold cleanupStep
    rw [ha]
    cases v with
    | obj fields => rw [alookup_dinsert, if_pos rfl]
    | str s => exact ha
    | num n => exact ha
    | bool b => exact ha
    | null => exact ha
    | arr l => exact ha

theorem cleanup_lookup (en : Dict) (hnd : (en.map Prod.fst).Nodup)
    (k : String) :
    alookup (cleanupUpdates en) k =
      match alookup en k with
      | some v =>
        if isUpdateDirective v then some (cleanupNewVal v) else some v
      | none => none := by
  have h := fold_lookup cleanupStep
    (fun o kv =>
      match o with
      | some (JVal.obj _) => some (cleanupNewVal kv.2)
      | _ => o)
    cleanup_frame
    (fun acc kv => cleanup_self acc kv)
    (updatesOf en) en k
    (nodup_keys_filter en (fun kv => isUpdateDirective kv.2) hnd)
  have hu : alookup (updatesOf en) k =
      match alookup en k with
      | some v => if isUpdateDirective v then some v else none
      | none => none := by
    simpa [updatesOf] using
      alookup_filter (fun kv => isUpdateDirective kv.2) en k hnd
  unfold cleanupUpdates
  rw [h, hu]
  cases he : alookup en k with
  | none => rfl
  | some v =>
    by_cases hdir : isUpdateDirective v = true
    · cases v with
      | obj fields => simp [hdir]
      | str s => simp [isUpdateDirective] at hdir
      | num n => simp [isUpdateDirective] at hdir
      | bool b => simp [isUpdateDirective] at hdir
      | null => simp [isUpdateDirective] at hdir
      | arr l => simp [isUpdateDirective] at hdir
    · have hdirf : isUpdateDirective v = false := by simpa using hdir
      simp [hdirf]

theorem sync_fold_error (en : Dict) (cs : Nat)
    (oracle : String → Nat → Except String Dict) (e : String)
    (langs : List String) :
    langs.foldl (syncStep en cs oracle) (Except.error e) = Except.error e := by
  induction langs with
  | nil => rfl
  | cons l rest ih => exact ih

theorem syncLangRun_events (en : Dict) (lang : String) (target : Dict)
    (cs : Nat) (oracle : Nat → Except String Dict)
    (levs : List WEvent) (w : Option Dict)
    (h : syncLangRun en lang target cs oracle = Except.ok (levs, w)) :
    levs = [] ∨ ∃ c, levs = [WEvent.localeWrite lang c] := by
  unfold syncLangRun at h
  split at h
  · exact absurd h (by simp)
  · split at h
    · injection h with h2
      cases h2
      exact Or.inl rfl
    · injection h with h2
      cases h2
      exact Or.inr ⟨_, rfl⟩

theorem sync_fold_events (en : Dict) (cs : Nat)
    (oracle : String → Nat → Except String Dict) (langs : List String) :
    ∀ (fs : List (String × Dict)) (evs : List WEvent)
      (fs2 : List (String × Dict)) (evs2 : List WEvent),
      langs.foldl (syncStep en cs oracle) (Except.ok (fs, evs)) =
        Except.ok (fs2, evs2) →
      ∃ tail, evs2 = evs ++ tail ∧
        ∀ e ∈ tail, ∃ lg c, e = WEvent.localeWrite lg c := by
  induction langs with
  | nil =>
    intro fs evs fs2 evs2 h
    injection h with h2
    cases h2
    exact ⟨[], by simp, by simp⟩
  | cons lang rest ih =>
    intro fs evs fs2 evs2 h
    rw [List.foldl_cons] at h
    cases hr : syncLangRun en lang ((alookup fs lang).getD []) cs (oracle lang) with
    | error e =>
      simp only [syncStep, hr] at h
      rw [sync_fold_error] at h
      exact absurd h (by simp)
    | ok p =>
      obtain ⟨levs, w⟩ := p
      simp only [syncStep, hr] at h
      obtain ⟨tail, htail, hall⟩ := ih _ _ _ _ h
      refine ⟨levs ++ tail, by rw [htail, List.append_assoc], ?_⟩
      intro e he
      rcases List.mem_append.mp he with h1 | h1
      · rcases syncLangRun_events en lang _ cs (oracle lang) levs w hr with
          h2 | ⟨c, h2⟩
        · subst h2; exact absurd h1 (List.not_mem_nil e)
        · subst h2
          have h3 := List.mem_singleton.mp h1
          subst h3
          exact ⟨lang, c, rfl⟩
      · exact hall e h1

/-- Claim C6.  At the end of a successful sync run, after all locales have
been processed, the String Table file is persisted exactly once (the only
`enWrite` event, and it is the last event of the run), and its content is
`cleanupUpdates en`, in which every update directive `\x7btext, update:
true\x7d` has been replaced by its plain `text` value (third conjunct). -/
theorem c6_string_table_cleanup (en : Dict) (fs0 : List (String × Dict))
    (langs : List String) (cs : Nat)
    (oracle : String → Nat → Except String Dict) (evs : List WEvent)
    (hnd : (en.map Prod.fst).Nodup)
    (hok : translate_sync en fs0 langs cs oracle = Except.ok evs) :
    evs.filter (fun e => match e with
      | WEvent.enWrite _ => true
      | _ => false) = [WEvent.enWrite (cleanupUpdates en)] ∧
    evs.getLast? = some (WEvent.enWrite (cleanupUpdates en)) ∧
    (∀ k fields t, alookup en k = some (JVal.obj fields) →
        isUpdateDirective (JVal.obj fields) = true →
        alookup fields "text" = some t →
        alookup (cleanupUpdates en) k = some t) := by
  unfold translate_sync at hok
  cases hf : langs.foldl (syncStep en cs oracle) (Except.ok (fs0, [])) with
  | error e => rw [hf] at hok; exact absurd hok (by simp)
  | ok p =>
    obtain ⟨fs2, evs0⟩ := p
    rw [hf] at hok
    injection hok with h2
    subst h2
    obtain ⟨tail, htail, hall⟩ := sync_fold_events en cs oracle langs fs0 [] fs2 evs0 hf
    refine ⟨?_, List.getLast?_concat _, ?_⟩
    · rw [List.filter_append]
      have h0 : evs0.filter (fun e => match e with
          | WEvent.enWrite _ => true
          | _ => false) = [] := by
        rw [List.filter_eq_nil_iff]
        intro e he
        have he2 : e ∈ tail := by
          rw [htail] at he
          simpa using he
        obtain ⟨lg, c, rfl⟩ := hall e he2
        simp
      rw [h0]
      rfl
    · intro k fields t hk hdirk ht
      rw [cleanup_lookup en hnd k, hk]
      simp [hdirk, cleanupNewVal, ht]

/-- Witness for `c6_string_table_cleanup`: the end-to-end scenario of the
spec — String Table `\x7b"a": "Hello", "b": \x7btext: "Goodbye", update:
true\x7d\x7d`, locale `fr` with no existing file, chunk size 1, oracle
returning `\x7b"a": "Bonjour"\x7d` then `\x7b"b": "Au revoir"\x7d`. -/
theorem c6_string_table_cleanup_witness :
    alookup (cleanupUpdates
      [("a", JVal.str "Hello"),
       ("b", JVal.obj [("text", JVal.str "Goodbye"),
                       ("update", JVal.bool true)])]) "b" =
      some (JVal.str "Goodbye") := by
  have h := c6_string_table_cleanup
    [("a", JVal.str "Hello"),
     ("b", JVal.obj [("text", JVal.str "Goodbye"),
                     ("update", JVal.bool true)])]
    [] ["fr"] 1
    (fun _ i => if i = 0 then Except.ok [("a", JVal.str "Bonjour")]
                else Except.ok [("b", JVal.str "Au revoir")])
    [WEvent.localeWrite "fr"
       [("a", JVal.str "Bonjour"), ("b", JVal.str "Au revoir")],
     WEvent.enWrite [("a", JVal.str "Hello"), ("b", JVal.str "Goodbye")]]
    (by decide) rfl
  exact h.2.2 "b" [("text", JVal.str "Goodbye"), ("update", JVal.bool true)]
    (JVal.str "Goodbye") rfl rfl rfl

theorem syncLoop_keyMem (rs : List (Except String Dict)) :
    ∀ (acc : Dict) (k : String),
      keyMem (syncLoop acc rs) k =
        (keyMem acc k ||
          rs.any (fun r => match r with
            | Except.ok d => keyMem d k
            | Except.error _ => false)) := by
  induction rs with
  | nil => intro acc k; simp [syncLoop]
  | cons r rest ih =>
    intro acc k
    cases r with
    | ok d =>
      show keyMem (syncLoop (dictUpdate acc d) rest) k = _
      rw [ih, keyMem_dictUpdate, List.any_cons]
      simp [Bool.or_assoc]
    | error e =>
      show keyMem (syncLoop acc rest) k = _
      rw [ih, List.any_cons]
      simp

theorem syncAccum_keyMem (rs : List (Except String Dict)) (k : String) :
    keyMem (syncAccum rs) k =
      rs.any (fun r => match r with
        | Except.ok d => keyMem d k
        | Except.error _ => false) := by
  unfold syncAccum
  rw [syncLoop_keyMem]
  simp [keyMem, alookup]

theorem syncAccum_mem_of (rs : List (Except String Dict)) (d : Dict)
    (k : String) (hm : Except.ok d ∈ rs) (hk : keyMem d k = true) :
    keyMem (syncAccum rs) k = true := by
  rw [syncAccum_keyMem, List.any_eq_true]
  exact ⟨Except.ok d, hm, hk⟩

theorem syncAccum_mem_inv (rs : List (Except String Dict)) (k : String)
    (h : keyMem (syncAccum rs) k = true) :
    ∃ d, Except.ok d ∈ rs ∧ keyMem d k = true := by
  rw [syncAccum_keyMem, List.any_eq_true] at h
  obtain ⟨r, hr, hp⟩ := h
  cases r with
  | ok d => exact ⟨d, hr, hp⟩
  | error e => simp at hp

theorem syncAccum_ok_of_ne_nil (rs : List (Except String Dict))
    (h : (syncAccum rs).isEmpty = false) :
    ∃ d, Except.ok d ∈ rs := by
  cases ha : syncAccum rs with
  | nil => rw [ha] at h; simp at h
  | cons kv rest =>
    have hk : keyMem (syncAccum rs) kv.1 = true := by
      rw [ha, keyMem_cons]
      simp
    obtain ⟨d, hd, _⟩ := syncAccum_mem_inv rs kv.1 hk
    exact ⟨d, hd⟩

theorem bulk_loop_acc (rs : List (Except String Dict)) :
    ∀ (lang : String) (i : Nat) (acc : Dict),
      (bulkLoop lang i acc rs).1 = syncLoop acc rs := by
  induction rs with
  | nil => intro lang i acc; rfl
  | cons r rest ih =>
    intro lang i acc
    cases r with
    | ok d => exact ih lang (i + 1) (dictUpdate acc d)
    | error e => exact ih lang (i + 1) acc

theorem bulk_loop_artifacts (rs : List (Except String Dict)) :
    ∀ (lang : String) (i : Nat) (acc : Dict),
      ((bulkLoop lang i acc rs).2.filter isArtifactEv).length =
        rs.countP isErrRes := by
  induction rs with
  | nil => intro lang i acc; rfl
  | cons r rest ih =>
    intro lang i acc
    cases r with
    | ok d =>
      show ((WEvent.tempWrite lang (dictUpdate acc d) ::
        (bulkLoop lang (i + 1) (dictUpdate acc d) rest).2).filter
          isArtifactEv).length = _
      rw [List.filter_cons, List.countP_cons]
      simp [isArtifactEv, isErrRes, ih lang (i + 1) (dictUpdate acc d)]
    | error e =>
      show ((WEvent.artifact (lang ++ "_error_chunk_" ++ toString (i + 1) ++
        ".log") e :: (bulkLoop lang (i + 1) acc rest).2).filter
          isArtifactEv).length = _
      rw [List.filter_cons, List.countP_cons]
      simp [isArtifactEv, isErrRes, ih lang (i + 1) acc]

theorem bulk_loop_kinds (rs : List (Except String Dict)) :
    ∀ (lang : String) (i : Nat) (acc : Dict) (e : WEvent),
      e ∈ (bulkLoop lang i acc rs).2 →
      isTempWriteEv e = true ∨ isArtifactEv e = true := by
  induction rs with
  | nil => intro lang i acc e he; exact absurd he (List.not_mem_nil e)
  | cons r rest ih =>
    intro lang i acc e he
    cases r with
    | ok d =>
      rcases List.mem_cons.mp he with h1 | h1
      · subst h1; exact Or.inl rfl
      · exact ih lang (i + 1) (dictUpdate acc d) e h1
    | error er =>
      rcases List.mem_cons.mp he with h1 | h1
      · subst h1; exact Or.inr rfl
      · exact ih lang (i + 1) acc e h1

theorem bulk_loop_temp_of_ok (rs : List (Except String Dict)) :
    ∀ (lang : String) (i : Nat) (acc : Dict) (d : Dict),
      Except.ok d ∈ rs →
      (bulkLoop lang i acc rs).2.any isTempWriteEv = true := by
  induction rs with
  | nil => intro lang i acc d hm; exact absurd hm (List.not_mem_nil _)
  | cons r rest ih =>
    intro lang i acc d hm
    cases r with
    | ok d2 =>
      show ((WEvent.tempWrite lang (dictUpdate acc d2) ::
        (bulkLoop lang (i + 1) (dictUpdate acc d2) rest).2).any
          isTempWriteEv) = true
      rw [List.any_cons]
      simp [isTempWriteEv]
    | error e =>
      rcases List.mem_cons.mp hm with h1 | h1
      · exact absurd h1 (by simp)
      · show ((WEvent.artifact (lang ++ "_error_chunk_" ++ toString (i + 1) ++
          ".log") e :: (bulkLoop lang (i + 1) acc rest).2).any
            isTempWriteEv) = true
        rw [List.any_cons]
        simp [isTempWriteEv]
        have := ih lang (i + 1) acc d h1
        simpa using this

theorem bulk_loop_no_localeWrite (rs : List (Except String Dict))
    (lang : String) (i : Nat) (acc : Dict) :
    (bulkLoop lang i acc rs).2.filter isLocaleWriteEv = [] := by
  rw [List.filter_eq_nil_iff]
  intro e he
  rcases bulk_loop_kinds rs lang i acc e he with h | h <;>
    cases e <;> simp_all [isTempWriteEv, isArtifactEv, isLocaleWriteEv]

theorem bulk_loop_no_failReport (rs : List (Except String Dict))
    (lang : String) (i : Nat) (acc : Dict) :
    (bulkLoop lang i acc rs).2.filter isFailReportEv = [] := by
  rw [List.filter_eq_nil_iff]
  intro e he
  rcases bulk_loop_kinds rs lang i acc e he with h | h <;>
    cases e <;> simp_all [isTempWriteEv, isArtifactEv, isFailReportEv]

theorem bulk_loop_no_tempRemove (rs : List (Except String Dict))
    (lang : String) (i : Nat) (acc : Dict) :
    (bulkLoop lang i acc rs).2.filter isTempRemoveEv = [] := by
  rw [List.filter_eq_nil_iff]
  intro e he
  rcases bulk_loop_kinds rs lang i acc e he with h | h <;>
    cases e <;> simp_all [isTempWriteEv, isArtifactEv, isTempRemoveEv]

theorem bulkLang_artifacts (lang : String) (rs : List (Except String Dict)) :
    ((bulkLang lang rs).filter isArtifactEv).length = rs.countP isErrRes := by
  unfold bulkLang
  by_cases he : (bulkLoop lang 0 [] rs).1.isEmpty
  · rw [if_pos he, List.filter_append]
    simp [isArtifactEv, bulk_loop_artifacts rs lang 0 []]
  · rw [if_neg he, List.filter_append, List.filter_append]
    by_cases ht : (bulkLoop lang 0 [] rs).2.any isTempWriteEv
    · rw [if_pos ht]
      simp [isArtifactEv, bulk_loop_artifacts rs lang 0 []]
    · rw [if_neg ht]
      simp [isArtifactEv, bulk_loop_artifacts rs lang 0 []]

/-- Claim C4 (amended).  When the chunk results `rs` of one locale contain
exactly one failure while the rest succeed, processing continues to the
end: on the bulk path (`translate.py`) exactly one error-log artifact is
written; on the sync path (`translation_sync.py`) NO artifact file is
written at all — the original claim's "exactly one diagnostic error
artifact" holds only for the bulk path, the sync path only prints to the
console.  The accumulated result contains precisely the keys of the
successful chunk responses (failed chunk's keys omitted, successful
chunks' keys present, and on the bulk path they make up the written Locale
File); the failure never aborts the locale. -/
theorem c4_chunk_failure_isolation (lang : String)
    (rs : List (Except String Dict)) (h1 : rs.countP isErrRes = 1) :
    ((bulkLang lang rs).filter isArtifactEv).length = 1 ∧
    (∀ en target cs oracle levs w,
        syncLangRun en lang target cs oracle = Except.ok (levs, w) →
        levs.filter isArtifactEv = []) ∧
    (∀ d k, Except.ok d ∈ rs → keyMem d k = true →
        keyMem (syncAccum rs) k = true) ∧
    (∀ k, keyMem (syncAccum rs) k = true →
        ∃ d, Except.ok d ∈ rs ∧ keyMem d k = true) ∧
    ((syncAccum rs).isEmpty = false →
        WEvent.localeWrite lang (syncAccum rs) ∈ bulkLang lang rs) := by
  refine ⟨?_, ?_, ?_, ?_, ?_⟩
  · rw [bulkLang_artifacts, h1]
  · intro en target cs oracle levs w h
    rcases syncLangRun_events en lang target cs oracle levs w h with
      h2 | ⟨c, h2⟩ <;> subst h2 <;> rfl
  · exact fun d k hm hk => syncAccum_mem_of rs d k hm hk
  · exact fun k h => syncAccum_mem_inv rs k h
  · intro hne
    have hacc : (bulkLoop lang 0 [] rs).1 = syncAccum rs := bulk_loop_acc rs lang 0 []
    unfold bulkLang
    simp only [hacc, hne, Bool.false_eq_true, if_false]
    refine List.mem_append.mpr (Or.inl ?_)
    exact List.mem_append.mpr (Or.inr (List.mem_singleton.mpr rfl))

/-- Claim C4 counterexample.  A sync run over the String Table
`\x7b"a": "x", "b": "y", "c": "z"\x7d` with empty Locale File and chunk
size 1 dispatches three chunks; the oracle fails on exactly the middle one.
The claim's premises hold (one failed chunk, the others succeed, the
successful keys `a`, `c` are in the written Locale File, the failed key `b`
is omitted), but the claimed "exactly one diagnostic error artifact" is
false on this path: the run's full event list is the single Locale File
write — zero artifact files (the sync path's `except` clause only prints). -/
theorem c4_counterexample :
    syncLangRun [("a", JVal.str "x"), ("b", JVal.str "y"), ("c", JVal.str "z")]
      "fr" [] 1
      (fun i => if i = 0 then Except.ok [("a", JVal.str "A")]
        else if i = 1 then Except.error "boom"
        else Except.ok [("c", JVal.str "C")]) =
      Except.ok
        ([WEvent.localeWrite "fr" [("a", JVal.str "A"), ("c", JVal.str "C")]],
         some [("a", JVal.str "A"), ("c", JVal.str "C")]) ∧
    ([WEvent.localeWrite "fr" [("a", JVal.str "A"), ("c", JVal.str "C")]].filter
      isArtifactEv).length = 0 := ⟨rfl, rfl⟩

/-- Witness for `c4_chunk_failure_isolation` at a concrete three-chunk
result list whose middle entry failed. -/
theorem c4_chunk_failure_isolation_witness :
    ((bulkLang "de" [Except.ok [("a", JVal.str "A")], Except.error "boom",
       Except.ok [("c", JVal.str "C")]]).filter isArtifactEv).length = 1 ∧
    keyMem (syncAccum [Except.ok [("a", JVal.str "A")], Except.error "boom",
       Except.ok [("c", JVal.str "C")]]) "c" = true := by
  have h := c4_chunk_failure_isolation "de"
    [Except.ok [("a", JVal.str "A")], Except.error "boom",
     Except.ok [("c", JVal.str "C")]] rfl
  refine ⟨h.1, h.2.2.1 [("c", JVal.str "C")] "c" ?_ rfl⟩
  exact List.Mem.tail _ (List.Mem.tail _ (List.Mem.head _))

/-- Claim C5 (amended).  Per locale with work to do: on the bulk path
(`translate.py`), if any translated data was produced it is persisted as
the Locale File's entire new content and the intermediate file is removed,
and if none was produced no write at all happens and failure is reported
for the locale.  On the sync path (`translation_sync.py`), however, the
Locale File is written UNCONDITIONALLY once the work-set is non-empty —
also when every chunk failed, in which case the write re-serializes the
unchanged mapping (`target_data.update(\x7b\x7d)`) — and no failure is
ever reported; the original claim's "no write occurs and failure is
reported" holds only on the bulk path. -/
theorem c5_persistence (lang : String) (rs : List (Except String Dict)) :
    ((syncAccum rs).isEmpty = true →
      (bulkLang lang rs).filter isLocaleWriteEv = [] ∧
      (bulkLang lang rs).filter isTempRemoveEv = [] ∧
      WEvent.failReport lang ∈ bulkLang lang rs) ∧
    ((syncAccum rs).isEmpty = false →
      (bulkLang lang rs).filter isLocaleWriteEv =
        [WEvent.localeWrite lang (syncAccum rs)] ∧
      WEvent.tempRemove lang ∈ bulkLang lang rs ∧
      (bulkLang lang rs).filter isFailReportEv = []) ∧
    (∀ en target cs oracle toT, planWorkSet en target = Except.ok toT →
      toT.isEmpty = false →
      syncLangRun en lang target cs oracle =
        Except.ok ([WEvent.localeWrite lang (dictUpdate target (syncAccum
          ((List.range (chunk_dict toT cs).length).map oracle)))],
          some (dictUpdate target (syncAccum
            ((List.range (chunk_dict toT cs).length).map oracle))))) ∧
    (∀ en target cs oracle levs w,
      syncLangRun en lang target cs oracle = Except.ok (levs, w) →
      levs.filter isFailReportEv = []) := by
  have hacc : (bulkLoop lang 0 [] rs).1 = syncAccum rs := bulk_loop_acc rs lang 0 []
  refine ⟨?_, ?_, ?_, ?_⟩
  · intro he
    unfold bulkLang
    simp only [hacc, he, if_true]
    refine ⟨?_, ?_, ?_⟩
    · rw [List.filter_append, bulk_loop_no_localeWrite]
      rfl
    · rw [List.filter_append, bulk_loop_no_tempRemove]
      rfl
    · exact List.mem_append.mpr (Or.inr (List.mem_singleton.mpr rfl))
  · intro he
    unfold bulkLang
    simp only [hacc, he, Bool.false_eq_true, if_false]
    obtain ⟨d, hd⟩ := syncAccum_ok_of_ne_nil rs he
    have ht : (bulkLoop lang 0 [] rs).2.any isTempWriteEv = true :=
      bulk_loop_temp_of_ok rs lang 0 [] d hd
    simp only [ht, if_true]
    refine ⟨?_, ?_, ?_⟩
    · rw [List.filter_append, List.filter_append, bulk_loop_no_localeWrite]
      rfl
    · exact List.mem_append.mpr (Or.inr (List.mem_singleton.mpr rfl))
    · rw [List.filter_append, List.filter_append, bulk_loop_no_failReport]
      rfl
  · intro en target cs oracle toT hplan hne
    unfold syncLangRun
    rw [hplan]
    simp only [hne, Bool.false_eq_true, if_false]
  · intro en target cs oracle levs w h
    rcases syncLangRun_events en lang target cs oracle levs w h with
      h2 | ⟨c, h2⟩ <;> subst h2 <;> rfl

/-- Claim C5 counterexample.  Sync run, String Table `\x7b"a": "x"\x7d`,
existing Locale File `\x7b"b": "old"\x7d`, non-empty work-set `\x7b"a":
"x"\x7d`, and a Translation Client that fails on every chunk: no translated
data is produced (`syncAccum = \x7b\x7d`), yet the Locale File IS written
(one `localeWrite` event, re-serializing the unchanged mapping), and no
failure report of any kind is emitted — the claim requires that no write
occur and that failure be reported. -/
theorem c5_counterexample :
    syncAccum [(Except.error "boom" : Except String Dict)] = [] ∧
    syncLangRun [("a", JVal.str "x")] "fr" [("b", JVal.str "old")] 1
      (fun _ => Except.error "boom") =
      Except.ok ([WEvent.localeWrite "fr" [("b", JVal.str "old")]],
        some [("b", JVal.str "old")]) := ⟨rfl, rfl⟩

/-- Witness for `c5_persistence`: bulk path with a single failed chunk —
no Locale File write, and the failure report is present. -/
theorem c5_persistence_witness :
    (bulkLang "de" [(Except.error "x" : Except String Dict)]).filter
      isLocaleWriteEv = [] ∧
    WEvent.failReport "de" ∈
      bulkLang "de" [(Except.error "x" : Except String Dict)] := by
  have h := (c5_persistence "de" [(Except.error "x" : Except String Dict)]).1 rfl
  exact ⟨h.1, h.2.2⟩

theorem qaMerge_frame (td : Dict) (kv : String × JVal) (k : String)
    (h : k ≠ kv.1) : alookup (qaMergeStep td kv) k = alookup td k := by
  unfold qaMergeStep
  split
  · split
    · rw [alookup_dinsert, if_neg (fun he => h he.symm)]
    · rfl
  · rfl

theorem qaMerge_self (td : Dict) (kv : String × JVal) :
    alookup (qaMergeStep td kv) kv.1 =
      match kv.2 with
      | JVal.obj fields =>
        (match alookup fields "translation" with
         | some t => some t
         | none => alookup td kv.1)
      | _ => alookup td kv.1 := by
  obtain ⟨k1, v1⟩ := kv
  unfold qaMergeStep
  cases v1 <;> try rfl
  case obj fields =>
    cases ht : alookup fields "translation" with
    | some t =>
      simp only [ht]
      rw [alookup_dinsert, if_pos rfl]
    | none => simp only [ht]

theorem qaMerge_lookup (problems translated : Dict) (k : String)
    (hnd : (problems.map Prod.fst).Nodup) :
    alookup (qaMerge problems translated) k =
      match alookup problems k with
      | some (JVal.obj fields) =>
        (match alookup fields "translation" with
         | some t => some t
         | none => alookup translated k)
      | some _ => alookup translated k
      | none => alookup translated k := by
  have h := fold_lookup qaMergeStep
    (fun o kv =>
      match kv.2 with
      | JVal.obj fields =>
        (match alookup fields "translation" with
         | some t => some t
         | none => o)
      | _ => o)
    qaMerge_frame
    (fun acc kv => qaMerge_self acc kv)
    problems translated k hnd
  unfold qaMerge
  rw [h]
  cases hp : alookup problems k with
  | none => rfl
  | some v => cases v <;> rfl

/-- Claim C10.  The merge steps copy parsed Translation Client responses
without checking them against the dispatched chunk's key set: (1) any key
of any successful chunk response is a key of the accumulated result — no
hypothesis ties the key to any chunk or to the String Table; (2) every key
of the accumulated result survives the final `target_data.update` merge
into the Locale File content; (3) on the QA path, any problem entry whose
value is a record with a `translation` field is patched into the Locale
File data — with no hypothesis that the Locale File ever contained that
key. -/
theorem c10_unchecked_merge :
    (∀ (rs : List (Except String Dict)) (d : Dict) (k : String),
        Except.ok d ∈ rs → keyMem d k = true →
        keyMem (syncAccum rs) k = true) ∧
    (∀ (target acc : Dict) (k : String), keyMem acc k = true →
        keyMem (dictUpdate target acc) k = true) ∧
    (∀ (problems translated : Dict) (k : String)
        (fields : List (String × JVal)) (t : JVal),
        (problems.map Prod.fst).Nodup →
        alookup problems k = some (JVal.obj fields) →
        alookup fields "translation" = some t →
        alookup (qaMerge problems translated) k = some t) := by
  refine ⟨?_, ?_, ?_⟩
  · exact fun rs d k hm hk => syncAccum_mem_of rs d k hm hk
  · intro target acc k hk
    rw [keyMem_dictUpdate]
    simp [hk]
  · intro problems translated k fields t hnd hp ht
    rw [qaMerge_lookup problems translated k hnd]
    simp [hp, ht]

/-- Witness for `c10_unchecked_merge`: a response key `rogue` that was in
no chunk lands in the accumulated result, and a QA problem entry for a key
`ghost` absent from the Locale File is patched in anyway. -/
theorem c10_unchecked_merge_witness :
    keyMem (syncAccum [Except.ok [("rogue", JVal.str "R")]]) "rogue" = true ∧
    alookup (qaMerge
      [("ghost", JVal.obj [("translation", JVal.str "G"),
        ("issue", JVal.str "invented")])]
      [("x", JVal.str "old")]) "ghost" = some (JVal.str "G") := by
  have h := c10_unchecked_merge
  refine ⟨h.1 [Except.ok [("rogue", JVal.str "R")]] [("rogue", JVal.str "R")]
    "rogue" (List.Mem.head _) rfl, ?_⟩
  exact h.2.2 [("ghost", JVal.obj [("translation", JVal.str "G"),
      ("issue", JVal.str "invented")])]
    [("x", JVal.str "old")] "ghost"
    [("translation", JVal.str "G"), ("issue", JVal.str "invented")]
    (JVal.str "G") (by decide) rfl rfl

theorem qaProblems_nil (oracle : Nat → Dict) :
    ∀ (n : Nat), (∀ i < n, oracle i = []) → qaProblems n oracle = [] := by
  intro n
  induction n with
  | zero => intro _; rfl
  | succ m ih =>
    intro h
    unfold qaProblems
    rw [List.range_succ, List.foldl_append]
    have h1 : qaProblems m oracle = [] := ih (fun i hi => h i (by omega))
    unfold qaProblems at h1
    rw [h1]
    show dictUpdate [] (oracle m) = []
    rw [h m (by omega)]
    rfl

/-- Claim C9 (amended).  Per locale of the QA pass (chunk review results
supplied per chunk index, standing for `check_translation_chunk`'s return
value), the Locale File is written at most once, after all chunks are
reviewed, and the write happens exactly when the accumulated problem
record is non-empty — NOT only when a correction was made: problem entries
without a `translation` field (such as the `\x7b"error": raw\x7d`
sentinel) trigger a rewrite although the merge loop changes nothing.  When
every chunk returns an empty problem record, no write occurs and the data
is untouched. -/
theorem c9_qa_write_once (en translated : Dict) (cs : Nat)
    (oracle : Nat → Dict) :
    ((check_locale en translated cs oracle).2 = false ↔
      qaProblems (chunk_dict en cs).length oracle = []) ∧
    ((∀ i < (chunk_dict en cs).length, oracle i = []) →
      check_locale en translated cs oracle = (translated, false)) := by
  constructor
  · unfold check_locale
    by_cases he : (qaProblems (chunk_dict en cs).length oracle).isEmpty = true
    · simp only [he, if_true]
      constructor
      · intro _
        exact List.isEmpty_iff.mp he
      · intro _
        trivial
    · have he2 : qaProblems (chunk_dict en cs).length oracle ≠ [] := by
        intro hh
        exact he (by simp [hh])
      simp only [he, Bool.false_eq_true, if_false]
      constructor
      · intro hcontra
        exact absurd hcontra (by simp)
      · intro hcontra
        exact absurd hcontra he2
  · intro h
    have hp := qaProblems_nil oracle _ h
    unfold check_locale
    rw [hp]
    rfl

/-- Claim C9 counterexample.  One chunk, whose review result is the parse
failure sentinel `\x7b"error": "junk"\x7d`: no correction is made (the
final data equals the input), yet the write flag is set — the Locale File
is rewritten although zero corrections were made, contradicting "only if
at least one correction was made". -/
theorem c9_counterexample :
    check_locale [("x", JVal.str "Hello")] [("x", JVal.str "Mal")] 1
      (fun _ => [("error", JVal.str "junk")]) =
      ([("x", JVal.str "Mal")], true) := rfl

/-- Witness for `c9_qa_write_once`: all chunks return an empty problem
record — no write, data untouched. -/
theorem c9_qa_write_once_witness :
    check_locale [("x", JVal.str "Hello")] [("x", JVal.str "Bien")] 1
      (fun _ => []) = ([("x", JVal.str "Bien")], false) :=
  (c9_qa_write_once [("x", JVal.str "Hello")] [("x", JVal.str "Bien")] 1
    (fun _ => [])).2 (fun _ _ => rfl)

theorem startsWithL_append_same (p : List Char) :
    ∀ (l : List Char), startsWithL p (p ++ l) = true := by
  induction p with
  | nil => intro l; rfl
  | cons c cs ih => intro l; simp [startsWithL, ih]

theorem startsWithL_tag_bare (rest : List Char) :
    startsWithL fenceTagChars ('`' :: '`' :: '`' :: '\n' :: rest) = false := by
  simp [startsWithL, fenceTagChars]

theorem startsWithL_tag_brace (rest : List Char) :
    startsWithL fenceTagChars ('{' :: rest) = false := by
  simp [startsWithL, fenceTagChars]

theorem startsWithL_fence_brace (rest : List Char) :
    startsWithL fenceChars ('{' :: rest) = false := by
  simp [startsWithL, fenceChars]

theorem startsWithL_fence_closebrace (rest : List Char) :
    startsWithL fenceChars ('}' :: rest) = false := by
  simp [startsWithL, fenceChars]

theorem lstripSet_tag (rest : List Char) :
    lstripSet fenceTagChars (fenceTagChars ++ '\n' :: rest) = '\n' :: rest := by
  simp [lstripSet, fenceTagChars, List.dropWhile_cons]

theorem lstripSet_fence (rest : List Char) :
    lstripSet fenceChars (fenceChars ++ '\n' :: rest) = '\n' :: rest := by
  simp [lstripSet, fenceChars, List.dropWhile_cons]

theorem lstripWs_newline_brace (rest : List Char) :
    lstripWs ('\n' :: '{' :: rest) = '{' :: rest := by
  simp [lstripWs, List.dropWhile_cons, isPySpace]

theorem lstripWs_backtick (rest : List Char) :
    lstripWs ('`' :: rest) = '`' :: rest := by
  simp [lstripWs, List.dropWhile_cons, isPySpace]

theorem lstripWs_brace (rest : List Char) :
    lstripWs ('{' :: rest) = '{' :: rest := by
  simp [lstripWs, List.dropWhile_cons, isPySpace]

theorem rstripWs_close (l : List Char) :
    rstripWs (l ++ ['\n', '`', '`', '`']) = l ++ ['\n', '`', '`', '`'] := by
  unfold rstripWs
  rw [List.reverse_append]
  simp [List.dropWhile_cons, isPySpace]

theorem rstripWs_closebrace (l : List Char) :
    rstripWs (l ++ ['}']) = l ++ ['}'] := by
  unfold rstripWs
  rw [List.reverse_append]
  simp [List.dropWhile_cons, isPySpace]

theorem rstripWs_closebrace_newline (l : List Char) :
    rstripWs (l ++ ['}', '\n']) = l ++ ['}'] := by
  unfold rstripWs
  rw [List.reverse_append]
  simp [List.dropWhile_cons, isPySpace]

theorem rstripSet_fence_close (l : List Char) :
    rstripSet fenceChars (l ++ ['\n', '`', '`', '`']) = l ++ ['\n'] := by
  unfold rstripSet
  rw [List.reverse_append]
  simp [List.dropWhile_cons, fenceChars]

theorem endsWithL_close (l : List Char) :
    endsWithL fenceChars (l ++ ['\n', '`', '`', '`']) = true := by
  unfold endsWithL
  rw [List.reverse_append]
  exact startsWithL_append_same fenceChars.reverse _

theorem endsWithL_braces (mid : List Char) :
    endsWithL fenceChars ('{' :: mid ++ ['}']) = false := by
  unfold endsWithL
  rw [show ('{' :: mid ++ ['}']) = ('{' :: mid) ++ ['}'] from rfl,
    List.reverse_append]
  exact startsWithL_fence_closebrace _

theorem pyStrip_braces (mid : List Char) :
    pyStrip ('{' :: mid ++ ['}']) = '{' :: mid ++ ['}'] := by
  simp [pyStrip, lstripWs, rstripWs, List.dropWhile_cons, isPySpace]

theorem pyStrip_braces_newline (mid : List Char) :
    pyStrip (('{' :: mid ++ ['}']) ++ ['\n']) = '{' :: mid ++ ['}'] := by
  simp [pyStrip, lstripWs, rstripWs, List.dropWhile_cons, isPySpace]

theorem pyStrip_newline_body (mid : List Char) :
    pyStrip ('\n' :: ('{' :: mid ++ ['}']) ++ ['\n', '`', '`', '`']) =
      ('{' :: mid ++ ['}']) ++ ['\n', '`', '`', '`'] := by
  simp [pyStrip, lstripWs, rstripWs, List.dropWhile_cons, isPySpace]

theorem take_body_slice (mid : List Char) :
    List.take (mid.length + 2) (mid ++ ['}', '\n', '`', '`', '`']) =
      mid ++ ['}', '\n'] := by
  rw [List.take_append]
  rfl

/-- Claim C7.  For every well-formed JSON object text `J` — serialized
JSON objects are exactly the texts of the shape `'\x7b' :: mid ++
['\x7d']` — wrapping `J` in a fenced code block, tagged
(` ```json\nJ\n``` `) or untagged (` ```\nJ\n``` `), normalizes to the
very same text as the unwrapped `J`, on the bulk/sync fence stripper
(`translate.py` lines 232-240) and on the QA fence stripper
(`translation_checker.py` lines 103-111) alike.  Since the rest of each
pipeline (parsing; on the QA path also the quote cleanup) is a function of
this text, the parsed structure is identical in all cases. -/
theorem c7_normalizer_roundtrip (mid : List Char) :
    bulkNormalize (fenceTagChars ++ '\n' :: ('{' :: mid ++ ['}']) ++
      ['\n', '`', '`', '`']) = '{' :: mid ++ ['}'] ∧
    bulkNormalize (fenceChars ++ '\n' :: ('{' :: mid ++ ['}']) ++
      ['\n', '`', '`', '`']) = '{' :: mid ++ ['}'] ∧
    bulkNormalize ('{' :: mid ++ ['}']) = '{' :: mid ++ ['}'] ∧
    checkerNormalize (fenceTagChars ++ '\n' :: ('{' :: mid ++ ['}']) ++
      ['\n', '`', '`', '`']) = '{' :: mid ++ ['}'] ∧
    checkerNormalize (fenceChars ++ '\n' :: ('{' :: mid ++ ['}']) ++
      ['\n', '`', '`', '`']) = '{' :: mid ++ ['}'] ∧
    checkerNormalize ('{' :: mid ++ ['}']) = '{' :: mid ++ ['}'] := by
  refine ⟨?_, ?_, ?_, ?_, ?_, ?_⟩
  · simp [bulkNormalize, pyStrip, lstripWs, rstripWs, lstripSet, rstripSet,
      startsWithL, endsWithL, fenceTagChars, fenceChars, isPySpace,
      List.dropWhile_cons]
  · simp [bulkNormalize, pyStrip, lstripWs, rstripWs, lstripSet, rstripSet,
      startsWithL, endsWithL, fenceTagChars, fenceChars, isPySpace,
      List.dropWhile_cons]
  · simp [bulkNormalize, pyStrip, lstripWs, rstripWs, lstripSet, rstripSet,
      startsWithL, endsWithL, fenceTagChars, fenceChars, isPySpace,
      List.dropWhile_cons]
  · simp [checkerNormalize, pyStrip, lstripWs, rstripWs, startsWithL,
      endsWithL, fenceTagChars, fenceChars, isPySpace, List.dropWhile_cons,
      take_body_slice]
  · simp [checkerNormalize, pyStrip, lstripWs, rstripWs, startsWithL,
      endsWithL, fenceTagChars, fenceChars, isPySpace, List.dropWhile_cons,
      take_body_slice]
  · simp [checkerNormalize, pyStrip, lstripWs, rstripWs, startsWithL,
      endsWithL, fenceTagChars, fenceChars, isPySpace, List.dropWhile_cons]

/-- Claim C8 (code-bug evaluation).  The QA response normalizer ALWAYS
raises, on every input and for every parser: `check_translation_chunk`
calls `clean_quotes_and_escape` (line 113) before its `try`, and that
function's `re.sub` pattern has a variable-width lookbehind
(`(?<="translation":\\s?)` — a literal backslash followed by an optional
`s`), which CPython's `re` module rejects with `re.error: look-behind
requires fixed-width pattern` when compiling the pattern.  The exception
is not caught (the handlers catch only `json.JSONDecodeError`), so the
`\x7b"error": raw\x7d` sentinel of line 131 is unreachable and the claim's
"never raises on malformed input" is violated by every input; the
exception propagates out of `check_translations`, which aborts the whole
QA run on its first chunk.  This contradicts the module's own
documentation ("Parsing issues from OpenAI's response are logged and
skipped to avoid data loss"). -/
theorem c8_qa_normalizer_always_raises (jparse : List Char → Option JVal)
    (raw : List Char) :
    check_translation_chunk_norm jparse raw =
      Except.error "re.error: look-behind requires fixed-width pattern" := rfl
